import Mathlib

/-!
# Directus → Slack webhook relay (`cmd/server/main.go`)

A shallow embedding of the relay handler.  Go strings are lists of characters
(`GoString`); the standard-library calls the handler makes (`strings`, `fmt`,
`encoding/json`) are given by the definitions of the first sections, the
functions of `main.go` follow under their own names.
-/

namespace Directus2Slack

/-- Go `string`, as the sequence of its characters. -/
abbrev GoString := List Char

/-! ## Package `strings` -/

/-- Scan of `strings.ReplaceAll` / `strings.Count` for a non-empty pattern: `skip` is the number
of characters of the current match still to be passed over. -/
def replaceAllFrom (old new : GoString) : GoString → Nat → GoString
  | [], _ => []
  | _ :: rest, skip + 1 => replaceAllFrom old new rest skip
  | c :: rest, 0 =>
    if old.isPrefixOf (c :: rest) then new ++ replaceAllFrom old new rest (old.length - 1)
    else c :: replaceAllFrom old new rest 0

/-- Go `strings.ReplaceAll(s, old, new)`: every non-overlapping occurrence of `old`, found from
left to right, is replaced by `new`; an empty `old` matches before every character and at the
end. -/
def replaceAll (s old new : GoString) : GoString :=
  if old = [] then new ++ s.flatMap (fun c => c :: new) else replaceAllFrom old new s 0

/-- Left-to-right count of the non-overlapping occurrences of a non-empty `substr`. -/
def countFrom (substr : GoString) : GoString → Nat → Nat
  | [], _ => 0
  | _ :: rest, skip + 1 => countFrom substr rest skip
  | c :: rest, 0 =>
    if substr.isPrefixOf (c :: rest) then 1 + countFrom substr rest (substr.length - 1)
    else countFrom substr rest 0

/-- Go `strings.Count(s, substr)`. -/
def count (s substr : GoString) : Nat :=
  if substr = [] then s.length + 1 else countFrom substr s 0

/-- Go `unicode.IsSpace`. -/
def isSpace (c : Char) : Bool :=
  let n := c.toNat
  (9 ≤ n && n ≤ 13) || n == 32 || n == 0x85 || n == 0xA0 || n == 0x1680 ||
  (0x2000 ≤ n && n ≤ 0x200A) || n == 0x2028 || n == 0x2029 || n == 0x202F ||
  n == 0x205F || n == 0x3000

/-- Go `strings.TrimSpace`: leading and trailing white space removed. -/
def trimSpace (s : GoString) : GoString :=
  ((s.dropWhile isSpace).reverse.dropWhile isSpace).reverse

/-! ## Values of type `interface{}` and package `fmt` -/

/-- A finite `float64`, held as the shortest decimal that identifies it (the `decimalSlice` that
`strconv` formats from): the value is `± 0.d₁d₂…dₙ × 10^dp`; zero has no digits and `dp = 0`. -/
structure Float64 where
  neg : Bool
  d : List Char
  dp : Int
  deriving DecidableEq, Repr

/-- What `encoding/json` stores into an `interface{}`: `nil`, `bool`, `float64`, `string`,
`[]interface{}` or `map[string]interface{}`.  A map is kept as its entries in increasing key
order, one per key. -/
inductive GoValue where
  | nil
  | bool (b : Bool)
  | float64 (f : Float64)
  | string (s : GoString)
  | slice (l : List GoValue)
  | map (m : List (GoString × GoValue))

/-- Go `map[string]interface{}`: entries in increasing key order, one per key. -/
abbrev GoMap := List (GoString × GoValue)

/-- Decimal digits of a natural number. -/
def natDigits (n : Nat) : GoString := Nat.toDigits 10 n

/-- Verb `%d` (and `%v`) on an `int`. -/
def fmtInt (n : Int) : GoString :=
  if n < 0 then '-' :: natDigits n.natAbs else natDigits n.natAbs

/-- The sign `strconv` writes in front of a float. -/
def fmtSign (neg : Bool) : GoString := if neg then ['-'] else []

/-- Go `strconv` `%e` with the shortest precision (`fmtE` with `prec = nd - 1`). -/
def fmtE (f : Float64) : GoString :=
  let first : GoString := [f.d.headD '0']
  let more : GoString := if f.d.length > 1 then '.' :: f.d.tail else []
  let exp : Int := if f.d.length = 0 then 0 else f.dp - 1
  let sign : Char := if exp < 0 then '-' else '+'
  let e : Nat := exp.natAbs
  let digits : GoString :=
    if e < 10 then ['0', Nat.digitChar e]
    else if e < 100 then [Nat.digitChar (e / 10), Nat.digitChar (e % 10)]
    else [Nat.digitChar (e / 100), Nat.digitChar (e / 10 % 10), Nat.digitChar (e % 10)]
  fmtSign f.neg ++ first ++ more ++ ['e', sign] ++ digits

/-- Go `strconv` `%f` with the shortest precision (`fmtF` with `prec = max (nd - dp) 0`). -/
def fmtF (f : Float64) : GoString :=
  let nd : Nat := f.d.length
  let integer : GoString :=
    if 0 < f.dp then
      let m := min nd f.dp.toNat
      f.d.take m ++ List.replicate (f.dp.toNat - m) '0'
    else ['0']
  let prec : Nat := ((nd : Int) - f.dp).toNat
  let fraction : GoString :=
    if 0 < prec then
      '.' :: (List.range prec).map (fun i =>
        let j : Int := f.dp + i
        if 0 ≤ j ∧ j < nd then f.d.getD j.toNat '0' else '0')
    else []
  fmtSign f.neg ++ integer ++ fraction

/-- Verb `%v` on a `float64`: `strconv.FormatFloat(f, 'g', -1, 64)`; in the shortest form
`%e` is used if `exp < -4 || exp >= 6` and `%f` otherwise. -/
def fmtFloat (f : Float64) : GoString :=
  let exp : Int := f.dp - 1
  if exp < -4 ∨ exp ≥ 6 then fmtE f else fmtF f

/-- The verbs the handler prints an `interface{}` with. -/
inductive Verb where
  | v
  | s
  deriving DecidableEq, Repr

mutual
/-- Go `fmt` printing of an `interface{}` value under a verb (`printArg` / `printValue`);
`inner` says that the value is an element of a slice or map.  `%v` prints every value; `%s`
prints strings, descends into slices and maps, and reports any other operand as a bad verb,
`%!s(type=value)`; a nil element of a slice or map prints as `<nil>` under every verb. -/
def fmtValue : Verb → Bool → GoValue → GoString
  | .v, _, .nil => "<nil>".toList
  | .s, true, .nil => "<nil>".toList
  | .s, false, .nil => "%!s(<nil>)".toList
  | .v, _, .bool b => if b then "true".toList else "false".toList
  | .s, _, .bool b =>
    "%!s(bool=".toList ++ (if b then "true".toList else "false".toList) ++ ")".toList
  | .v, _, .float64 f => fmtFloat f
  | .s, _, .float64 f => "%!s(float64=".toList ++ fmtFloat f ++ ")".toList
  | _, _, .string s => s
  | verb, _, .slice l => "[".toList ++ fmtElems verb l ++ "]".toList
  | verb, _, .map m => "map[".toList ++ fmtEntries verb m ++ "]".toList
/-- Elements of a slice, separated by one space. -/
def fmtElems : Verb → List GoValue → GoString
  | _, [] => []
  | verb, [x] => fmtValue verb true x
  | verb, x :: y :: rest => fmtValue verb true x ++ " ".toList ++ fmtElems verb (y :: rest)
/-- Entries of a map as `key:value`, in key order, separated by one space. -/
def fmtEntries : Verb → List (GoString × GoValue) → GoString
  | _, [] => []
  | verb, [(k, x)] => k ++ ":".toList ++ fmtValue verb true x
  | verb, (k, x) :: y :: rest =>
    k ++ ":".toList ++ fmtValue verb true x ++ " ".toList ++ fmtEntries verb (y :: rest)
end

/-- Go `fmt.Sprint(x)` for a single `interface{}` operand. -/
def sprint (x : GoValue) : GoString := fmtValue .v false x

/-! ## Package `encoding/json` -/

/-- A syntactically valid JSON value.  A number carries its literal text (what
`strconv.ParseInt` is run on when the target is an `int`) and the `float64` that
`strconv.ParseFloat` returns for it, `none` when the literal is out of range. -/
inductive Json where
  | null
  | bool (b : Bool)
  | number (lit : GoString) (f64 : Option Float64)
  | string (s : GoString)
  | array (l : List Json)
  | object (m : List (GoString × Json))

/-- Go string comparison `a < b` (byte-wise on UTF-8, which is the order of the code points). -/
def strLt : GoString → GoString → Bool
  | _, [] => false
  | [], _ :: _ => true
  | a :: as, b :: bs => a.toNat < b.toNat || (a == b && strLt as bs)

/-- Map assignment `m[k] = x`. -/
def mapSet (k : GoString) (x : GoValue) : GoMap → GoMap
  | [] => [(k, x)]
  | (k', x') :: rest =>
    if k = k' then (k, x) :: rest
    else if strLt k k' then (k, x) :: (k', x') :: rest
    else (k', x') :: mapSet k x rest

/-- Go `delete(m, k)`. -/
def mapDelete (m : GoMap) (k : GoString) : GoMap := m.filter (fun e => e.1 ≠ k)

/-- Map lookup `m[k]`, `none` when the key is absent. -/
def mapGet : GoMap → GoString → Option GoValue
  | [], _ => none
  | (k', x) :: rest, k => if k' = k then some x else mapGet rest k

/-- The map holding the members of an object, assigned in document order (a repeated key keeps
its last value). -/
def mapOfMembers (members : List (GoString × GoValue)) : GoMap :=
  members.foldl (fun m e => mapSet e.1 e.2 m) []

mutual
/-- Decoding of a JSON value into an `interface{}`; `none` when `json.Unmarshal` reports an
error, which on this target happens only for a number that `ParseFloat` rejects. -/
def toInterface : Json → Option GoValue
  | .null => some .nil
  | .bool b => some (.bool b)
  | .number _ f64 => f64.map GoValue.float64
  | .string s => some (.string s)
  | .array l => (toInterfaceElems l).map GoValue.slice
  | .object m => (toInterfaceMembers m).map (fun ms => GoValue.map (mapOfMembers ms))
/-- Decoding of the elements of an array. -/
def toInterfaceElems : List Json → Option (List GoValue)
  | [] => some []
  | j :: rest =>
    match toInterface j, toInterfaceElems rest with
    | some x, some xs => some (x :: xs)
    | _, _ => none
/-- Decoding of the members of an object, in document order. -/
def toInterfaceMembers : List (GoString × Json) → Option (List (GoString × GoValue))
  | [] => some []
  | (k, j) :: rest =>
    match toInterface j, toInterfaceMembers rest with
    | some x, some xs => some ((k, x) :: xs)
    | _, _ => none
end

/-- Value of a string of decimal digits, `none` if it is empty or holds another character. -/
def parseDigits (s : GoString) : Option Nat :=
  if s ≠ [] ∧ s.all Char.isDigit then
    some (s.foldl (fun n c => 10 * n + (c.toNat - 48)) 0)
  else none

/-- Go `strconv.ParseInt(s, 10, 64)`: an optional sign and decimal digits, within `int64`. -/
def parseInt (s : GoString) : Option Int :=
  match s with
  | '-' :: rest =>
    match parseDigits rest with
    | some n => if n ≤ 2 ^ 63 then some (-(n : Int)) else none
    | none => none
  | '+' :: rest =>
    match parseDigits rest with
    | some n => if n < 2 ^ 63 then some (n : Int) else none
    | none => none
  | _ =>
    match parseDigits s with
    | some n => if n < 2 ^ 63 then some (n : Int) else none
    | none => none

/-- ASCII case folding of one character, as its code. -/
def foldChar (c : Char) : Nat :=
  if 97 ≤ c.toNat ∧ c.toNat ≤ 122 then c.toNat - 32 else c.toNat

/-- The case-insensitive comparison `encoding/json` matches an object key against a struct field
name with; for the field names of `commonFields` (ASCII, without `k` or `s`) it is equality up
to ASCII case. -/
def equalFold (name key : GoString) : Bool := name.map foldChar == key.map foldChar

/-! ## `cmd/server/main.go` -/

/-- The struct `commonFields`: common to all webhook JSON bodies Directus sends. -/
structure commonFields where
  ID : GoValue
  ModifiedBy : Int
  ModifiedOn : GoString

/-- The zero value `commonFields{}`. -/
def commonFields.zero : commonFields := ⟨.nil, 0, []⟩

/-- The fields of `commonFields`, in declaration order. -/
inductive Field where
  | ID
  | ModifiedBy
  | ModifiedOn
  deriving DecidableEq, Repr

/-- The `json:"..."` name of a field. -/
def Field.name : Field → GoString
  | .ID => "id".toList
  | .ModifiedBy => "modified_by".toList
  | .ModifiedOn => "modified_on".toList

/-- The fields of `commonFields`, in declaration order. -/
def commonFieldList : List Field := [.ID, .ModifiedBy, .ModifiedOn]

/-- The field an object key is stored into: the field of that exact name, or else the first field
whose name equals the key up to case. -/
def findField (key : GoString) : Option Field :=
  match commonFieldList.find? (fun f => f.name = key) with
  | some f => some f
  | none => commonFieldList.find? (fun f => equalFold f.name key)

/-- Store of one JSON value into a field of `commonFields`; `none` when the decoder records an
error (a value of the wrong JSON type for the field, a number that does not fit).  `null` leaves
an `int` or `string` field as it is and sets the interface field to `nil`. -/
def storeField (c : commonFields) : Field → Json → Option commonFields
  | .ID, j => (toInterface j).map (fun x => { c with ID := x })
  | .ModifiedBy, .null => some c
  | .ModifiedBy, .number lit _ => (parseInt lit).map (fun n => { c with ModifiedBy := n })
  | .ModifiedBy, _ => none
  | .ModifiedOn, .null => some c
  | .ModifiedOn, .string s => some { c with ModifiedOn := s }
  | .ModifiedOn, _ => none

/-- Decoding of the members of an object into `commonFields`, in document order; a key that
matches no field is skipped.  The decoder goes on after a type error and returns the first one
at the end, so the result is an error as soon as one member fails. -/
def storeMembers (c : commonFields) : List (GoString × Json) → Option commonFields
  | [] => some c
  | (k, j) :: rest =>
    match findField k with
    | none => storeMembers c rest
    | some f =>
      match storeField c f j with
      | some c' => storeMembers c' rest
      | none => (storeMembers c rest).bind (fun _ => none)

/-- Go `json.Unmarshal(bodyRaw, &common)` on `common := commonFields{}`: an object is decoded
member by member, `null` changes nothing, every other value is a type error. -/
def unmarshalCommon : Json → Option commonFields
  | .object m => storeMembers commonFields.zero m
  | .null => some commonFields.zero
  | _ => none

/-- Go `json.Unmarshal(bodyRaw, &changes)` on `changes := map[string]interface{}{}`: an object
fills the map, `null` sets it to the nil map (which reads as the empty map), every other value is
a type error. -/
def unmarshalChanges : Json → Option GoMap
  | .object m => (toInterfaceMembers m).map mapOfMembers
  | .null => some []
  | _ => none

/-- Go `error` values the handler can meet. -/
inductive Error where
  | decode
  | unmarshal
  | new (msg : GoString)
  | url
  | transport
  deriving DecidableEq, Repr

/-- The struct `incoming`: parsed incoming webhook from Directus. -/
structure incoming where
  common : commonFields
  changes : GoMap
  slackUrlPath : GoString
  objectTypeName : GoString

/-- What `parseIncoming` reads of the `*http.Request`: the route parameters of
`/{userKey}/{objectTypeName}/*` and the body, `some j` when the body starts with the valid JSON
value `j` (what `Decode(&bodyRaw)` stores) and `none` when `Decode` fails. -/
structure Request where
  userKey : GoString
  objectTypeName : GoString
  wildcard : GoString
  body : Option Json

/-- The function `parseIncoming`. -/
def parseIncoming (r : Request) : Except Error incoming :=
  match r.body with
  | none => .error .decode
  | some bodyRaw =>
    match unmarshalCommon bodyRaw with
    | none => .error .unmarshal
    | some common =>
      match unmarshalChanges bodyRaw with
      | none => .error .unmarshal
      | some changes =>
        let changes := mapDelete changes "id".toList
        let changes := mapDelete changes "modified_by".toList
        let changes := mapDelete changes "modified_on".toList
        let objectTypeName := trimSpace r.objectTypeName
        if objectTypeName = [] then .error (.new "empty object type name".toList)
        else
          let slackUrlPath := trimSpace r.wildcard
          if slackUrlPath = [] ∨ count slackUrlPath "/".toList ≠ 2 then
            .error (.new "empty or invalid Slack URL path".toList)
          else
            .ok { common := common, changes := changes, slackUrlPath := slackUrlPath,
                  objectTypeName := objectTypeName }

/-- The function `escapeSlackText`. -/
def escapeSlackText (s : GoString) : GoString :=
  let s := replaceAll s "<".toList "&lt;".toList
  let s := replaceAll s ">".toList "&gt;".toList
  replaceAll s "&".toList "&amp;".toList

/-- The globals `keyHash` and `directusBaseURL`, and what the surroundings of the handler
decide: `compareHashAndPassword hash key` is `true` when `bcrypt.CompareHashAndPassword`
returns a nil error, `title` is `cases.Title(language.Dutch).String`, and `mapRange m` is the
order in which `range` visits the entries of the map `m`. -/
structure Env where
  keyHash : GoString
  directusBaseURL : GoString
  compareHashAndPassword : GoString → GoString → Bool
  title : GoString → GoString
  mapRange : GoMap → List (GoString × GoValue)

/-- The local `modifiedBy` of `buildOutgoing`. -/
def modifiedBy (env : Env) (i : incoming) : GoString :=
  env.directusBaseURL ++ "/admin/#/_/users/".toList ++ fmtInt i.common.ModifiedBy

/-- The local `modifiedObj` of `buildOutgoing`, where the record id is printed with `%s`. -/
def modifiedObj (env : Env) (i : incoming) : GoString :=
  env.directusBaseURL ++ "/admin/#/_/collections/".toList ++ i.objectTypeName ++ "/".toList ++
    fmtValue .s false i.common.ID

/-- One pass of the loop of `buildOutgoing`: the line of a changed field. -/
def changeLine (key : GoString) (val : GoValue) : GoString :=
  "- _".toList ++ escapeSlackText key ++ "_: ".toList ++ sprint val ++ "\n".toList

/-- The message text of `buildOutgoing` before its loop over the changes. -/
def messageHead (env : Env) (i : incoming) : GoString :=
  let text : GoString :=
    "<".toList ++ modifiedBy env i ++ "|Der User mit ID ".toList ++ fmtInt i.common.ModifiedBy ++
    "> hat der/die/das <".toList ++ escapeSlackText (modifiedObj env i) ++ "|".toList ++
    escapeSlackText (env.title i.objectTypeName) ++ " mit ID ".toList ++
    escapeSlackText (sprint i.common.ID) ++ "> erstellt/editiert/gelöscht.".toList
  let text := text ++ ("\n\nLinks zum copy-pasten:\n\x60".toList ++ modifiedBy env i ++
    "\x60\n\x60".toList ++ escapeSlackText (modifiedObj env i) ++ "\x60\n".toList)
  text ++ "\n\n*Änderungen*:\n".toList

/-- The message text `buildOutgoing` builds: the head, then one line per entry that `range`
visits. -/
def buildText (env : Env) (i : incoming) : GoString :=
  (env.mapRange i.changes).foldl (fun text e => text ++ changeLine e.1 e.2) (messageHead env i)

/-- The value `map[string]string{"text": text}` that `buildOutgoing` serialises.  `json.Marshal`
never fails on a map of strings, so the payload is kept as the map it encodes. -/
structure Outgoing where
  text : GoString

/-- The function `buildOutgoing`. -/
def buildOutgoing (env : Env) (i : incoming) : Except Error Outgoing :=
  .ok { text := buildText env i }

/-- The outbound side: `newRequest url` is the error of `http.NewRequest("POST", url, _)`,
`none` when the request is built; `clientDo url payload` is what `client.Do` returns for it,
an error or the status code of the response. -/
structure Outbound where
  newRequest : GoString → Option Error
  clientDo : GoString → Outgoing → Except Error Int

/-- The function `sendOutgoing`; the result is its `error`, `none` for nil.  After a successful
`http.NewRequest` the variable `err` is nil, and it is `err` that the transport branch returns. -/
def sendOutgoing (net : Outbound) (slackURL : GoString) (outgoing : Outgoing) : Option Error :=
  let err : Option Error := net.newRequest slackURL
  if err ≠ none then err
  else
    match net.clientDo slackURL outgoing with
    | .error _ => err
    | .ok statusCode =>
      if statusCode.tdiv 100 ≠ 2 then some (.new "received non-2XX status code".toList)
      else none

/-- What the handler does, in order. -/
inductive Event where
  | readBody
  | logString (msg : GoString)
  | logError (err : Error)
  | writeHeader (code : Nat)
  | spawn (slackURL : GoString) (outgoing : Outgoing)
  | closeBody

/-- The function `handler`, as the sequence of its effects: reading the body (the first step of
`parseIncoming`), log lines, the status written, the goroutine started with the arguments it
passes to `sendOutgoing`, and the deferred close of the body. -/
def handler (env : Env) (r : Request) : List Event :=
  (if env.compareHashAndPassword env.keyHash r.userKey = false then
    [.logString "invalid key".toList, .writeHeader 401]
  else
    match parseIncoming r with
    | .error err => [.readBody, .logError err, .writeHeader 400]
    | .ok i =>
      match buildOutgoing env i with
      | .error err => [.readBody, .logError err, .writeHeader 500]
      | .ok outgoing =>
        [.readBody, .spawn ("https://hooks.slack.com/services/".toList ++ i.slackUrlPath) outgoing,
         .writeHeader 204]) ++ [.closeBody]

/-- The goroutine of `handler`: `sendOutgoing`, and a log line when it returns an error. -/
def goroutine (net : Outbound) (slackURL : GoString) (outgoing : Outgoing) : List Event :=
  match sendOutgoing net slackURL outgoing with
  | some err => [.logError err]
  | none => []

/-- The status code of the response: the first `WriteHeader` of a trace. -/
def status : List Event → Option Nat
  | [] => none
  | .writeHeader code :: _ => some code
  | _ :: rest => status rest

/-- The goroutines a trace starts, in order. -/
def spawned : List Event → List (GoString × Outgoing)
  | [] => []
  | .spawn slackURL outgoing :: rest => (slackURL, outgoing) :: spawned rest
  | _ :: rest => spawned rest

/-- Whether a trace reads the request body. -/
def readsBody : List Event → Bool
  | [] => false
  | .readBody :: _ => true
  | _ :: rest => readsBody rest

/-- One request served against an outbound side: the effects of the handler, followed by those
of the goroutines it started. -/
def serve (env : Env) (net : Outbound) (r : Request) : List Event :=
  let trace := handler env r
  trace ++ (spawned trace).flatMap (fun g => goroutine net g.1 g.2)

/-! ## The specification's single-pass escaping -/

/-- The substitution the specification describes: each `<`, `>`, `&` of the input is replaced
once, every other character is kept. -/
def escapeSinglePass (s : GoString) : GoString :=
  s.flatMap (fun c =>
    if c = '<' then "&lt;".toList
    else if c = '>' then "&gt;".toList
    else if c = '&' then "&amp;".toList
    else [c])

/-- What `escapeSlackText` does to one character of its input. -/
def escapeChar (c : Char) : GoString :=
  if c = '<' then "&amp;lt;".toList
  else if c = '>' then "&amp;gt;".toList
  else if c = '&' then "&amp;".toList
  else [c]

/-! ## The body as the specification sees it -/

/-- The three audit fields that `parseIncoming` deletes from the changes. -/
def auditKeys : List GoString := ["id".toList, "modified_by".toList, "modified_on".toList]

/-- The top-level members of a body: those of an object, none for any other value. -/
def topLevel : Json → List (GoString × Json)
  | .object m => m
  | _ => []

/-- The value of key `k` among the members of an object: that of its last occurrence. -/
def lastValue {α : Type} (k : GoString) : List (GoString × α) → Option α
  | [] => none
  | (k', x) :: rest =>
    match lastValue k rest with
    | some y => some y
    | none => if k' = k then some x else none

/-- An object lacks a field of `commonFields` when none of its keys is stored into it. -/
def lacksField (members : List (GoString × Json)) (f : Field) : Bool :=
  members.all (fun e => findField e.1 != some f)

/-! ## Inputs of the examples -/

/-- A configuration: the default base URL, a key check that accepts the key `secret`, the title
of `widgets`, and `range` visiting a map in key order. -/
def exampleEnv : Env where
  keyHash := "$2a$10$hash".toList
  directusBaseURL := "https://log.bula21.ch".toList
  compareHashAndPassword := fun _ key => key == "secret".toList
  title := fun _ => "Widgets".toList
  mapRange := id

/-- The JSON number `5`. -/
def jsonFive : Json := .number "5".toList (some ⟨false, ['5'], 1⟩)

/-- The JSON number `3`. -/
def jsonThree : Json := .number "3".toList (some ⟨false, ['3'], 1⟩)

/-- The body `{"id":5,"modified_by":3,"modified_on":"2024-01-01T00:00:00Z","name":value}`. -/
def exampleBody (value : GoString) : Json :=
  .object [("id".toList, jsonFive), ("modified_by".toList, jsonThree),
    ("modified_on".toList, .string "2024-01-01T00:00:00Z".toList), ("name".toList, .string value)]

/-- A request `POST /secret/widgets/AAA/BBB/CCC` with the given body. -/
def exampleRequest (body : Option Json) : Request where
  userKey := "secret".toList
  objectTypeName := "widgets".toList
  wildcard := "AAA/BBB/CCC".toList
  body := body

/-- The `incoming` that `parseIncoming` returns for `exampleRequest (exampleBody value)`. -/
def exampleIncoming (value : GoString) : incoming where
  common := ⟨.float64 ⟨false, ['5'], 1⟩, 3, "2024-01-01T00:00:00Z".toList⟩
  changes := [("name".toList, .string value)]
  slackUrlPath := "AAA/BBB/CCC".toList
  objectTypeName := "widgets".toList

/-- The map that `json.Unmarshal` fills from `exampleBody value`. -/
def exampleMap (value : GoString) : GoMap :=
  [("id".toList, .float64 ⟨false, ['5'], 1⟩), ("modified_by".toList, .float64 ⟨false, ['3'], 1⟩),
   ("modified_on".toList, .string "2024-01-01T00:00:00Z".toList),
   ("name".toList, .string value)]

/-! ## Theorems -/

set_option maxRecDepth 100000

theorem replaceAllFrom_single (c : Char) (new s : GoString) :
    replaceAllFrom [c] new s 0 = s.flatMap (fun x => if x = c then new else [x]) := by
  induction s with
  | nil => rfl
  | cons x rest ih =>
    by_cases h : x = c
    · subst h
      simp [replaceAllFrom, List.isPrefixOf, ih]
    · have h' : ¬ c = x := fun e => h e.symm
      simp [replaceAllFrom, List.isPrefixOf, ih, h, h']

theorem replaceAll_single (c : Char) (new s : GoString) :
    replaceAll s [c] new = s.flatMap (fun x => if x = c then new else [x]) := by
  simp [replaceAll, replaceAllFrom_single]

/-- The function `escapeSlackText` rewrites its input character by character, and the
characters `<` and `>` come out with their ampersand escaped again. -/
theorem escapeSlackText_eq_flatMap (s : GoString) :
    escapeSlackText s = s.flatMap escapeChar := by
  have e1 : "<".toList = ['<'] := rfl
  have e2 : ">".toList = ['>'] := rfl
  have e3 : "&".toList = ['&'] := rfl
  simp only [escapeSlackText, e1, e2, e3, replaceAll_single]
  induction s with
  | nil => rfl
  | cons x rest ih =>
    simp only [List.flatMap_cons, List.flatMap_append, ih]
    congr 1
    by_cases h1 : x = '<'
    · subst h1; decide
    · by_cases h2 : x = '>'
      · subst h2; decide
      · by_cases h3 : x = '&'
        · subst h3; decide
        · simp [escapeChar, h1, h2, h3]

theorem escape_script_code :
    escapeSlackText "<script>&".toList = "&amp;lt;script&amp;gt;&amp;".toList := rfl

theorem escape_script_spec :
    escapeSinglePass "<script>&".toList = "&lt;script&gt;&amp;".toList := rfl

/-- C1: on the input `<script>&` the function `escapeSlackText` returns
`&amp;lt;script&amp;gt;&amp;`, where the single-pass substitution of the specification gives
`&lt;script&gt;&amp;`: the ampersands brought in by the first two replacements are escaped
again by the third. -/
theorem escapeSlackText_script :
    escapeSlackText "<script>&".toList = "&amp;lt;script&amp;gt;&amp;".toList ∧
    escapeSinglePass "<script>&".toList = "&lt;script&gt;&amp;".toList ∧
    escapeSlackText "<script>&".toList ≠ escapeSinglePass "<script>&".toList :=
  ⟨escape_script_code, escape_script_spec,
   fun h => absurd (escape_script_code.symm.trans (h.trans escape_script_spec)) (by decide)⟩

/-- C8: when `http.NewRequest` succeeds and `client.Do` fails at the transport level,
`sendOutgoing` returns the nil `err` of the request construction: the failure is not
reported. -/
theorem sendOutgoing_transport_error_nil (slackURL : GoString) (outgoing : Outgoing) :
    sendOutgoing ⟨fun _ => none, fun _ _ => .error .transport⟩ slackURL outgoing = none := by
  rfl

/-! ### The paths through `handler` -/

theorem handler_unauthorized (env : Env) (r : Request)
    (hkey : env.compareHashAndPassword env.keyHash r.userKey = false) :
    handler env r = [.logString "invalid key".toList, .writeHeader 401, .closeBody] := by
  simp [handler, hkey]

theorem handler_bad_request (env : Env) (r : Request) (err : Error)
    (hkey : env.compareHashAndPassword env.keyHash r.userKey = true)
    (hparse : parseIncoming r = .error err) :
    handler env r = [.readBody, .logError err, .writeHeader 400, .closeBody] := by
  simp [handler, hkey, hparse]

theorem handler_accepted (env : Env) (r : Request) (i : incoming)
    (hkey : env.compareHashAndPassword env.keyHash r.userKey = true)
    (hparse : parseIncoming r = .ok i) :
    handler env r =
      [.readBody,
       .spawn ("https://hooks.slack.com/services/".toList ++ i.slackUrlPath)
         { text := buildText env i },
       .writeHeader 204, .closeBody] := by
  simp [handler, hkey, hparse, buildOutgoing]

/-- The result of `parseIncoming` once its three decoding steps have succeeded. -/
theorem parseIncoming_decoded (r : Request) (j : Json) (c : commonFields) (m : GoMap)
    (hbody : r.body = some j) (hc : unmarshalCommon j = some c)
    (hm : unmarshalChanges j = some m) :
    parseIncoming r =
      if trimSpace r.objectTypeName = [] then .error (.new "empty object type name".toList)
      else if trimSpace r.wildcard = [] ∨ count (trimSpace r.wildcard) "/".toList ≠ 2 then
        .error (.new "empty or invalid Slack URL path".toList)
      else .ok
        { common := c
          changes := mapDelete (mapDelete (mapDelete m "id".toList) "modified_by".toList)
            "modified_on".toList
          slackUrlPath := trimSpace r.wildcard
          objectTypeName := trimSpace r.objectTypeName } := by
  simp [parseIncoming, hbody, hc, hm]

theorem unmarshalCommon_exampleBody (value : GoString) :
    unmarshalCommon (exampleBody value) = some (exampleIncoming value).common := rfl

theorem unmarshalChanges_exampleBody (value : GoString) :
    unmarshalChanges (exampleBody value) = some (exampleMap value) := rfl

theorem exampleRequest_key (body : Option Json) :
    exampleEnv.compareHashAndPassword exampleEnv.keyHash (exampleRequest body).userKey = true :=
  rfl

theorem parseIncoming_exampleRequest (value : GoString) :
    parseIncoming (exampleRequest (some (exampleBody value))) = .ok (exampleIncoming value) := by
  rw [parseIncoming_decoded _ _ _ _ rfl (unmarshalCommon_exampleBody value)
    (unmarshalChanges_exampleBody value)]
  rfl

/-- C3: when the key comparison fails, `handler` logs `invalid key`, writes status 401 and
returns: it does not read the body, starts no goroutine, and what it does is the same for every
body and every path parameter; served against any outbound side, nothing more happens. -/
theorem handler_invalid_key (env : Env) (r : Request)
    (hkey : env.compareHashAndPassword env.keyHash r.userKey = false) :
    handler env r = [.logString "invalid key".toList, .writeHeader 401, .closeBody] ∧
    status (handler env r) = some 401 ∧
    readsBody (handler env r) = false ∧
    spawned (handler env r) = [] ∧
    (∀ net : Outbound, serve env net r = handler env r) ∧
    (∀ (objectTypeName wildcard : GoString) (body : Option Json),
      handler env { r with objectTypeName := objectTypeName, wildcard := wildcard, body := body }
        = handler env r) := by
  have h := handler_unauthorized env r hkey
  refine ⟨h, ?_, ?_, ?_, ?_, ?_⟩
  · rw [h]; rfl
  · rw [h]; rfl
  · rw [h]; rfl
  · intro net
    simp [serve, h, spawned]
  · intro o w b
    rw [h]
    exact handler_unauthorized env _ hkey

/-- C3, at a request with a wrong key and a body and path that would otherwise be accepted. -/
theorem handler_invalid_key_witness :
    exampleEnv.compareHashAndPassword exampleEnv.keyHash
        ({ exampleRequest (some (exampleBody "Foo".toList)) with userKey := "guess".toList }
          ).userKey = false ∧
    status (handler exampleEnv
      { exampleRequest (some (exampleBody "Foo".toList)) with userKey := "guess".toList })
      = some 401 :=
  ⟨by decide,
   (handler_invalid_key exampleEnv
     { exampleRequest (some (exampleBody "Foo".toList)) with userKey := "guess".toList }
     (by decide)).2.1⟩

/-! ### Validation of the path parameters -/

/-- C6: with a valid key and a body that the three decoding steps accept, `parseIncoming`
returns an error, and `handler` answers 400, exactly when the trimmed object-type name is empty,
or the trimmed wildcard path is empty, or the trimmed wildcard path does not hold exactly two
`/`; in every other case `handler` answers 204. -/
theorem parseIncoming_path_check (env : Env) (r : Request) (j : Json) (c : commonFields)
    (m : GoMap) (hkey : env.compareHashAndPassword env.keyHash r.userKey = true)
    (hbody : r.body = some j) (hc : unmarshalCommon j = some c)
    (hm : unmarshalChanges j = some m) :
    ((∃ err, parseIncoming r = .error err) ↔
      (trimSpace r.objectTypeName = [] ∨ trimSpace r.wildcard = [] ∨
        count (trimSpace r.wildcard) "/".toList ≠ 2)) ∧
    (status (handler env r) = some 400 ↔
      (trimSpace r.objectTypeName = [] ∨ trimSpace r.wildcard = [] ∨
        count (trimSpace r.wildcard) "/".toList ≠ 2)) ∧
    (¬ (trimSpace r.objectTypeName = [] ∨ trimSpace r.wildcard = [] ∨
        count (trimSpace r.wildcard) "/".toList ≠ 2) → status (handler env r) = some 204) := by
  have hp := parseIncoming_decoded r j c m hbody hc hm
  by_cases h1 : trimSpace r.objectTypeName = []
  · rw [if_pos h1] at hp
    have hh := handler_bad_request env r _ hkey hp
    refine ⟨⟨fun _ => Or.inl h1, fun _ => ⟨_, hp⟩⟩, ⟨fun _ => Or.inl h1, fun _ => ?_⟩, ?_⟩
    · rw [hh]; rfl
    · intro hn; exact absurd (Or.inl h1) hn
  · rw [if_neg h1] at hp
    by_cases h2 : trimSpace r.wildcard = [] ∨ count (trimSpace r.wildcard) "/".toList ≠ 2
    · rw [if_pos h2] at hp
      have hh := handler_bad_request env r _ hkey hp
      refine ⟨⟨fun _ => Or.inr h2, fun _ => ⟨_, hp⟩⟩, ⟨fun _ => Or.inr h2, fun _ => ?_⟩, ?_⟩
      · rw [hh]; rfl
      · intro hn; exact absurd (Or.inr h2) hn
    · rw [if_neg h2] at hp
      have hh := handler_accepted env r _ hkey hp
      have hnot : ¬ (trimSpace r.objectTypeName = [] ∨ trimSpace r.wildcard = [] ∨
          count (trimSpace r.wildcard) "/".toList ≠ 2) := by
        rintro (h | h)
        · exact h1 h
        · exact h2 h
      have hst : status (handler env r) = some 204 := by rw [hh]; rfl
      refine ⟨⟨?_, fun h => absurd h hnot⟩, ⟨?_, fun h => absurd h hnot⟩, fun _ => hst⟩
      · rintro ⟨err, herr⟩
        rw [hp] at herr
        cases herr
      · intro h
        rw [hst] at h
        cases h

/-- C6, at the destination paths `AAA/BBB` and `AAA/BBB/CCC/DDD` (status 400) and
`AAA/BBB/CCC` (status 204). -/
theorem parseIncoming_path_check_witness :
    status (handler exampleEnv
      { exampleRequest (some (exampleBody "Foo".toList)) with wildcard := "AAA/BBB".toList })
      = some 400 ∧
    status (handler exampleEnv
      { exampleRequest (some (exampleBody "Foo".toList)) with
        wildcard := "AAA/BBB/CCC/DDD".toList })
      = some 400 ∧
    status (handler exampleEnv (exampleRequest (some (exampleBody "Foo".toList)))) = some 204 :=
  ⟨(parseIncoming_path_check exampleEnv
      { exampleRequest (some (exampleBody "Foo".toList)) with wildcard := "AAA/BBB".toList }
      (exampleBody "Foo".toList) _ _ rfl rfl (unmarshalCommon_exampleBody _)
      (unmarshalChanges_exampleBody _)).2.1.2 (by decide),
   (parseIncoming_path_check exampleEnv
      { exampleRequest (some (exampleBody "Foo".toList)) with
        wildcard := "AAA/BBB/CCC/DDD".toList }
      (exampleBody "Foo".toList) _ _ rfl rfl (unmarshalCommon_exampleBody _)
      (unmarshalChanges_exampleBody _)).2.1.2 (by decide),
   (parseIncoming_path_check exampleEnv (exampleRequest (some (exampleBody "Foo".toList)))
      (exampleBody "Foo".toList) _ _ rfl rfl (unmarshalCommon_exampleBody _)
      (unmarshalChanges_exampleBody _)).2.2 (by decide)⟩

/-! ### Bodies that do not decode -/

/-- With the request built and a response received, `sendOutgoing` returns nil exactly for a
status code whose hundreds are 2. -/
theorem sendOutgoing_status (net : Outbound) (slackURL : GoString) (outgoing : Outgoing)
    (statusCode : Int) (hreq : net.newRequest slackURL = none)
    (hdo : net.clientDo slackURL outgoing = .ok statusCode) :
    (sendOutgoing net slackURL outgoing = none ↔ statusCode.tdiv 100 = 2) := by
  by_cases h : statusCode.tdiv 100 = 2 <;> simp [sendOutgoing, hreq, hdo, h]

/-! ### The response and the outbound dispatch -/

theorem status_logs (l : List Event) (hl : ∀ e ∈ l, ∃ err, e = Event.logError err) :
    status l = none ∧ spawned l = [] := by
  induction l with
  | nil => exact ⟨rfl, rfl⟩
  | cons e rest ih =>
    obtain ⟨err, rfl⟩ := hl e (List.mem_cons_self _ _)
    have := ih (fun e he => hl e (List.mem_cons_of_mem _ he))
    simpa [status, spawned] using this

theorem status_append_logs (t l : List Event) (hl : ∀ e ∈ l, ∃ err, e = Event.logError err) :
    status (t ++ l) = status t ∧ spawned (t ++ l) = spawned t := by
  induction t with
  | nil => simpa [status, spawned] using status_logs l hl
  | cons e rest ih =>
    cases e <;> simp [status, spawned, ih.1, ih.2]

theorem goroutine_logs (net : Outbound) (gs : List (GoString × Outgoing)) :
    ∀ e ∈ gs.flatMap (fun g => goroutine net g.1 g.2), ∃ err, e = Event.logError err := by
  intro e he
  obtain ⟨g, _, hg⟩ := List.mem_flatMap.mp he
  unfold goroutine at hg
  cases hs : sendOutgoing net g.1 g.2 with
  | none => rw [hs] at hg; cases hg
  | some err =>
    rw [hs] at hg
    exact ⟨err, by simpa using hg⟩

theorem serve_status (env : Env) (net : Outbound) (r : Request) :
    status (serve env net r) = status (handler env r) ∧
    spawned (serve env net r) = spawned (handler env r) :=
  status_append_logs _ _ (goroutine_logs net _)

/-- C10: the status of the response does not depend on the outbound side: for every two
outcomes of the dispatch it is the same, for every request; and for a request with a valid
key, a body that decodes and valid path parameters, the handler starts exactly one goroutine,
bound for `https://hooks.slack.com/services/` followed by the trimmed destination path, and
the status is 204 whatever `sendOutgoing` meets. -/
theorem serve_status_independent (env : Env) (r : Request) (j : Json) (c : commonFields)
    (m : GoMap) (hkey : env.compareHashAndPassword env.keyHash r.userKey = true)
    (hbody : r.body = some j) (hc : unmarshalCommon j = some c)
    (hm : unmarshalChanges j = some m) (hname : trimSpace r.objectTypeName ≠ [])
    (hpath : trimSpace r.wildcard ≠ [])
    (hcount : count (trimSpace r.wildcard) "/".toList = 2) :
    (∀ net : Outbound, status (serve env net r) = some 204 ∧
      (spawned (serve env net r)).map Prod.fst =
        ["https://hooks.slack.com/services/".toList ++ trimSpace r.wildcard]) ∧
    (∃ outgoing, handler env r =
      [.readBody,
       .spawn ("https://hooks.slack.com/services/".toList ++ trimSpace r.wildcard) outgoing,
       .writeHeader 204, .closeBody]) ∧
    (∀ (r' : Request) (net net' : Outbound),
      status (serve env net r') = status (serve env net' r')) := by
  have hp := parseIncoming_decoded r j c m hbody hc hm
  have hok : ¬ (trimSpace r.wildcard = [] ∨ count (trimSpace r.wildcard) "/".toList ≠ 2) := by
    rintro (h | h)
    · exact hpath h
    · exact h hcount
  rw [if_neg hname, if_neg hok] at hp
  have hh := handler_accepted env r _ hkey hp
  refine ⟨fun net => ?_, ⟨_, hh⟩, fun r' net net' => ?_⟩
  · rw [(serve_status env net r).1, (serve_status env net r).2, hh]
    exact ⟨rfl, rfl⟩
  · rw [(serve_status env net r').1, (serve_status env net' r').1]

/-- C10, at the request of the example, served against an outbound side that answers 200, one
that fails at the transport level, and one that answers 500. -/
theorem serve_status_independent_witness :
    status (serve exampleEnv ⟨fun _ => none, fun _ _ => .ok 200⟩
      (exampleRequest (some (exampleBody "Foo".toList)))) = some 204 ∧
    status (serve exampleEnv ⟨fun _ => none, fun _ _ => .error .transport⟩
      (exampleRequest (some (exampleBody "Foo".toList)))) = some 204 ∧
    (spawned (serve exampleEnv ⟨fun _ => none, fun _ _ => .ok 500⟩
      (exampleRequest (some (exampleBody "Foo".toList))))).map Prod.fst =
      ["https://hooks.slack.com/services/AAA/BBB/CCC".toList] :=
  ⟨((serve_status_independent exampleEnv (exampleRequest (some (exampleBody "Foo".toList)))
      (exampleBody "Foo".toList) _ _ rfl rfl (unmarshalCommon_exampleBody _)
      (unmarshalChanges_exampleBody _) (by decide) (by decide)
      (by decide)).1 ⟨fun _ => none, fun _ _ => .ok 200⟩).1,
   ((serve_status_independent exampleEnv (exampleRequest (some (exampleBody "Foo".toList)))
      (exampleBody "Foo".toList) _ _ rfl rfl (unmarshalCommon_exampleBody _)
      (unmarshalChanges_exampleBody _) (by decide) (by decide)
      (by decide)).1 ⟨fun _ => none, fun _ _ => .error .transport⟩).1,
   ((serve_status_independent exampleEnv (exampleRequest (some (exampleBody "Foo".toList)))
      (exampleBody "Foo".toList) _ _ rfl rfl (unmarshalCommon_exampleBody _)
      (unmarshalChanges_exampleBody _) (by decide) (by decide)
      (by decide)).1 ⟨fun _ => none, fun _ _ => .ok 500⟩).2⟩

/-! ### The changes map -/

theorem mapGet_mapSet (k k' : GoString) (x : GoValue) (m : GoMap) :
    mapGet (mapSet k x m) k' = if k' = k then some x else mapGet m k' := by
  induction m with
  | nil =>
    by_cases h : k = k'
    · simp [mapSet, mapGet, h]
    · have h' : ¬ k' = k := fun e => h e.symm
      simp [mapSet, mapGet, h, h']
  | cons e rest ih =>
    obtain ⟨k₁, x₁⟩ := e
    by_cases h1 : k = k₁
    · subst h1
      by_cases h : k = k'
      · simp [mapSet, mapGet, h]
      · have h' : ¬ k' = k := fun e => h e.symm
        simp [mapSet, mapGet, h, h']
    · by_cases h2 : strLt k k₁ = true
      · by_cases h : k = k'
        · subst h
          simp [mapSet, mapGet, h1, h2]
        · have h' : ¬ k' = k := fun e => h e.symm
          simp [mapSet, mapGet, h1, h2, h, h']
      · by_cases h : k₁ = k'
        · subst h
          have h' : ¬ k₁ = k := fun e => h1 e.symm
          simp [mapSet, mapGet, h1, h2, h']
        · simp [mapSet, mapGet, h1, h2, h, ih]

theorem mapGet_foldl (k : GoString) (members : List (GoString × GoValue)) (acc : GoMap) :
    mapGet (members.foldl (fun m e => mapSet e.1 e.2 m) acc) k =
      match lastValue k members with
      | some y => some y
      | none => mapGet acc k := by
  induction members generalizing acc with
  | nil => rfl
  | cons e rest ih =>
    obtain ⟨k', x⟩ := e
    simp only [List.foldl_cons, ih, lastValue]
    cases lastValue k rest with
    | some y => rfl
    | none =>
      simp only [mapGet_mapSet]
      by_cases h : k' = k
      · simp [h]
      · have h' : ¬ k = k' := fun e => h e.symm
        simp [h, h']

theorem mapGet_mapOfMembers (k : GoString) (members : List (GoString × GoValue)) :
    mapGet (mapOfMembers members) k = lastValue k members := by
  unfold mapOfMembers
  rw [mapGet_foldl]
  cases lastValue k members <;> rfl

theorem mapGet_mapDelete (m : GoMap) (k k' : GoString) :
    mapGet (mapDelete m k) k' = if k' = k then none else mapGet m k' := by
  induction m with
  | nil => simp [mapDelete, mapGet]
  | cons e rest ih =>
    obtain ⟨k₁, x₁⟩ := e
    unfold mapDelete at ih
    by_cases h1 : k₁ = k
    · subst h1
      by_cases h : k' = k₁
      · subst h
        simpa [mapDelete, mapGet] using ih
      · have h' : ¬ k₁ = k' := fun e => h e.symm
        simpa [mapDelete, mapGet, h, h'] using ih
    · by_cases h : k₁ = k'
      · subst h
        have h' : ¬ k₁ = k := h1
        simp [mapDelete, mapGet, h1]
      · simpa [mapDelete, mapGet, h1, h] using ih

theorem mem_mapDelete (m : GoMap) (k : GoString) (e : GoString × GoValue)
    (he : e ∈ mapDelete m k) : e ∈ m ∧ e.1 ≠ k := by
  simpa [mapDelete] using he

theorem toInterfaceMembers_lastValue (k : GoString) (members : List (GoString × Json))
    (decoded : List (GoString × GoValue)) (h : toInterfaceMembers members = some decoded) :
    (lastValue k members = none → lastValue k decoded = none) ∧
    (∀ v, lastValue k members = some v →
      ∃ x, toInterface v = some x ∧ lastValue k decoded = some x) := by
  induction members generalizing decoded with
  | nil =>
    simp only [toInterfaceMembers, Option.some.injEq] at h
    subst h
    exact ⟨fun _ => rfl, fun v hv => by cases hv⟩
  | cons e rest ih =>
    obtain ⟨k', j⟩ := e
    simp only [toInterfaceMembers] at h
    cases hx : toInterface j with
    | none => rw [hx] at h; cases h
    | some x =>
      cases hxs : toInterfaceMembers rest with
      | none => rw [hx, hxs] at h; cases h
      | some xs =>
        rw [hx, hxs] at h
        simp only [Option.some.injEq] at h
        subst h
        obtain ⟨ih1, ih2⟩ := ih xs hxs
        simp only [lastValue]
        cases hl : lastValue k rest with
        | some v =>
          obtain ⟨y, hy1, hy2⟩ := ih2 v hl
          rw [hy2]
          exact ⟨fun hn => (by cases hn), fun v' hv' => by cases hv'; exact ⟨y, hy1, rfl⟩⟩
        | none =>
          rw [ih1 hl]
          by_cases hk : k' = k
          · simp only [if_pos hk]
            exact ⟨fun hn => (by cases hn), fun v' hv' => by cases hv'; exact ⟨x, hx, rfl⟩⟩
          · simp only [if_neg hk]
            exact ⟨fun _ => trivial, fun v' hv' => by cases hv'⟩

theorem foldl_changeLine (l : List (GoString × GoValue)) (head : GoString) :
    l.foldl (fun text e => text ++ changeLine e.1 e.2) head =
      head ++ l.flatMap (fun e => changeLine e.1 e.2) := by
  induction l generalizing head with
  | nil => simp
  | cons e rest ih => simp [ih, List.append_assoc]

theorem parseIncoming_ok_changes (r : Request) (j : Json) (i : incoming)
    (hbody : r.body = some j) (h : parseIncoming r = .ok i) :
    ∃ m, unmarshalChanges j = some m ∧
      i.changes = mapDelete (mapDelete (mapDelete m "id".toList) "modified_by".toList)
        "modified_on".toList := by
  cases hc : unmarshalCommon j with
  | none => simp [parseIncoming, hbody, hc] at h
  | some c =>
    cases hm : unmarshalChanges j with
    | none => simp [parseIncoming, hbody, hc, hm] at h
    | some m =>
      refine ⟨m, rfl, ?_⟩
      rw [parseIncoming_decoded r j c m hbody hc hm] at h
      split at h
      · cases h
      · split at h
        · cases h
        · cases h
          rfl

theorem unmarshalChanges_get (j : Json) (m : GoMap) (h : unmarshalChanges j = some m)
    (k : GoString) :
    (∀ v, lastValue k (topLevel j) = some v →
      ∃ x, toInterface v = some x ∧ mapGet m k = some x) ∧
    (lastValue k (topLevel j) = none → mapGet m k = none) := by
  cases j with
  | object members =>
    simp only [unmarshalChanges, Option.map_eq_some'] at h
    obtain ⟨decoded, hd, rfl⟩ := h
    obtain ⟨h1, h2⟩ := toInterfaceMembers_lastValue k members decoded hd
    simp only [topLevel, mapGet_mapOfMembers]
    exact ⟨h2, h1⟩
  | null =>
    simp only [unmarshalChanges, Option.some.injEq] at h
    subst h
    exact ⟨fun v hv => (by cases hv), fun _ => rfl⟩
  | bool b => cases h
  | number lit f64 => cases h
  | string s => cases h
  | array l => cases h

/-- C5: in what `parseIncoming` returns, the changes map has no entry for `id`, `modified_by`
or `modified_on`; every other top-level key of the body is in it with its (decoded) value, and
it has no further key; so the loop of `buildOutgoing`, which writes one line per entry that
`range` visits, writes no line for an audit field. -/
theorem parseIncoming_changes (r : Request) (j : Json) (i : incoming)
    (hbody : r.body = some j) (h : parseIncoming r = .ok i) :
    (∀ k ∈ auditKeys, mapGet i.changes k = none) ∧
    (∀ k v, k ∉ auditKeys → lastValue k (topLevel j) = some v →
      ∃ x, toInterface v = some x ∧ mapGet i.changes k = some x) ∧
    (∀ k, lastValue k (topLevel j) = none → mapGet i.changes k = none) ∧
    (∀ e ∈ i.changes, e.1 ∉ auditKeys) ∧
    (∀ env : Env, (env.mapRange i.changes).Perm i.changes →
      buildText env i =
        messageHead env i ++ (env.mapRange i.changes).flatMap (fun e => changeLine e.1 e.2) ∧
      ∀ e ∈ env.mapRange i.changes, e.1 ∉ auditKeys) := by
  obtain ⟨m, hm, hch⟩ := parseIncoming_ok_changes r j i hbody h
  have hget : ∀ k, mapGet i.changes k =
      if k = "modified_on".toList then none
      else if k = "modified_by".toList then none
      else if k = "id".toList then none else mapGet m k := by
    intro k
    rw [hch, mapGet_mapDelete, mapGet_mapDelete, mapGet_mapDelete]
  have hmem : ∀ e ∈ i.changes, e.1 ∉ auditKeys := by
    intro e he
    rw [hch] at he
    obtain ⟨he, h3⟩ := mem_mapDelete _ _ e he
    obtain ⟨he, h2⟩ := mem_mapDelete _ _ e he
    obtain ⟨_, h1⟩ := mem_mapDelete _ _ e he
    simp only [auditKeys, List.mem_cons, List.mem_singleton, List.not_mem_nil, or_false,
      not_or]
    exact ⟨h1, h2, h3⟩
  refine ⟨?_, ?_, ?_, hmem, ?_⟩
  · intro k hk
    rw [hget]
    simp only [auditKeys, List.mem_cons, List.mem_singleton, List.not_mem_nil, or_false] at hk
    rcases hk with hk | hk | hk <;> simp [hk]
  · intro k v hk hv
    obtain ⟨x, hx1, hx2⟩ := (unmarshalChanges_get j m hm k).1 v hv
    refine ⟨x, hx1, ?_⟩
    simp only [auditKeys, List.mem_cons, List.mem_singleton, List.not_mem_nil, or_false,
      not_or] at hk
    rw [hget, if_neg hk.2.2, if_neg hk.2.1, if_neg hk.1, hx2]
  · intro k hk
    rw [hget, (unmarshalChanges_get j m hm k).2 hk]
    simp
  · intro env hperm
    refine ⟨foldl_changeLine _ _, fun e he => hmem e (hperm.subset he)⟩

/-- C5, at the body `{"id":5,"modified_by":3,"modified_on":"2024-01-01T00:00:00Z","name":"Foo"}`:
the changes hold no `id`. -/
theorem parseIncoming_changes_witness :
    mapGet (exampleIncoming "Foo".toList).changes "id".toList = none :=
  (parseIncoming_changes (exampleRequest (some (exampleBody "Foo".toList)))
    (exampleBody "Foo".toList) (exampleIncoming "Foo".toList) rfl
    (parseIncoming_exampleRequest _)).1 "id".toList
    (by decide)

/-! ### Bodies without the audit fields -/

theorem storeField_other (c c' : commonFields) (f : Field) (j : Json)
    (h : storeField c f j = some c') :
    (f ≠ .ID → c'.ID = c.ID) ∧ (f ≠ .ModifiedBy → c'.ModifiedBy = c.ModifiedBy) ∧
    (f ≠ .ModifiedOn → c'.ModifiedOn = c.ModifiedOn) := by
  cases f with
  | ID =>
    simp only [storeField, Option.map_eq_some'] at h
    obtain ⟨x, _, rfl⟩ := h
    exact ⟨fun hn => absurd rfl hn, fun _ => rfl, fun _ => rfl⟩
  | ModifiedBy =>
    cases j with
    | null =>
      simp only [storeField, Option.some.injEq] at h
      subst h
      exact ⟨fun _ => rfl, fun _ => rfl, fun _ => rfl⟩
    | number lit f64 =>
      simp only [storeField, Option.map_eq_some'] at h
      obtain ⟨n, _, rfl⟩ := h
      exact ⟨fun _ => rfl, fun hn => absurd rfl hn, fun _ => rfl⟩
    | bool b => cases h
    | string s => cases h
    | array l => cases h
    | object m => cases h
  | ModifiedOn =>
    cases j with
    | null =>
      simp only [storeField, Option.some.injEq] at h
      subst h
      exact ⟨fun _ => rfl, fun _ => rfl, fun _ => rfl⟩
    | string s =>
      simp only [storeField, Option.some.injEq] at h
      subst h
      exact ⟨fun _ => rfl, fun _ => rfl, fun hn => absurd rfl hn⟩
    | bool b => cases h
    | number lit f64 => cases h
    | array l => cases h
    | object m => cases h

theorem storeMembers_lacks (members : List (GoString × Json)) (c c' : commonFields)
    (h : storeMembers c members = some c') :
    (lacksField members .ID = true → c'.ID = c.ID) ∧
    (lacksField members .ModifiedBy = true → c'.ModifiedBy = c.ModifiedBy) ∧
    (lacksField members .ModifiedOn = true → c'.ModifiedOn = c.ModifiedOn) := by
  induction members generalizing c with
  | nil =>
    simp only [storeMembers, Option.some.injEq] at h
    subst h
    exact ⟨fun _ => rfl, fun _ => rfl, fun _ => rfl⟩
  | cons e rest ih =>
    obtain ⟨k, j⟩ := e
    cases hk : findField k with
    | none =>
      simp only [storeMembers, hk] at h
      obtain ⟨i1, i2, i3⟩ := ih c h
      simp only [lacksField, List.all_cons, Bool.and_eq_true] at *
      exact ⟨fun hl => i1 hl.2, fun hl => i2 hl.2, fun hl => i3 hl.2⟩
    | some f =>
      cases hs : storeField c f j with
      | none =>
        simp only [storeMembers, hk, hs] at h
        cases hr : storeMembers c rest <;> rw [hr] at h <;> cases h
      | some c₁ =>
        simp only [storeMembers, hk, hs] at h
        obtain ⟨i1, i2, i3⟩ := ih c₁ h
        obtain ⟨s1, s2, s3⟩ := storeField_other c c₁ f j hs
        simp only [lacksField, List.all_cons, Bool.and_eq_true, hk, bne_iff_ne, ne_eq,
          Option.some.injEq] at *
        exact ⟨fun hl => (i1 hl.2).trans (s1 hl.1), fun hl => (i2 hl.2).trans (s2 hl.1),
          fun hl => (i3 hl.2).trans (s3 hl.1)⟩

/-- C7, as the code has it: a body that is a JSON object and whose members decode is accepted
when the path parameters are well-formed, whether or not it has the fields `id`,
`modified_by`, `modified_on`: `parseIncoming` returns no error, `handler` answers 204, and a
field that no key of the body is stored into keeps its zero value (`nil`, `0`, the empty
string). -/
theorem parseIncoming_missing_fields (env : Env) (r : Request)
    (members : List (GoString × Json)) (c : commonFields) (m : GoMap)
    (hkey : env.compareHashAndPassword env.keyHash r.userKey = true)
    (hbody : r.body = some (.object members))
    (hc : unmarshalCommon (.object members) = some c)
    (hm : unmarshalChanges (.object members) = some m)
    (hname : trimSpace r.objectTypeName ≠ []) (hpath : trimSpace r.wildcard ≠ [])
    (hcount : count (trimSpace r.wildcard) "/".toList = 2) :
    (∃ i, parseIncoming r = .ok i ∧ i.common = c) ∧
    status (handler env r) = some 204 ∧
    (lacksField members .ID = true → c.ID = .nil) ∧
    (lacksField members .ModifiedBy = true → c.ModifiedBy = 0) ∧
    (lacksField members .ModifiedOn = true → c.ModifiedOn = []) := by
  have hp := parseIncoming_decoded r _ c m hbody hc hm
  have hok : ¬ (trimSpace r.wildcard = [] ∨ count (trimSpace r.wildcard) "/".toList ≠ 2) := by
    rintro (h | h)
    · exact hpath h
    · exact h hcount
  rw [if_neg hname, if_neg hok] at hp
  have hh := handler_accepted env r _ hkey hp
  refine ⟨⟨_, hp, rfl⟩, by rw [hh]; rfl, ?_⟩
  exact storeMembers_lacks members commonFields.zero c hc

/-- C7, at the body `{"id":5}`, which has neither `modified_by` nor `modified_on`: status
204. -/
theorem parseIncoming_missing_fields_witness :
    lacksField [("id".toList, jsonFive)] .ModifiedBy = true ∧
    status (handler exampleEnv (exampleRequest (some (.object [("id".toList, jsonFive)]))))
      = some 204 :=
  ⟨by decide,
   (parseIncoming_missing_fields exampleEnv
      (exampleRequest (some (.object [("id".toList, jsonFive)]))) [("id".toList, jsonFive)]
      _ _ (by decide) rfl rfl rfl (by decide) (by decide) (by decide)).2.1⟩

/-- C7, refuted at the body `{}`: with the valid key and the path `widgets/AAA/BBB/CCC`, the
body lacks all three fields, `parseIncoming` returns the zero `commonFields` and no error, and
`handler` answers 204, not 400. -/
theorem empty_object_accepted :
    lacksField [] .ID = true ∧ lacksField [] .ModifiedBy = true ∧
    lacksField [] .ModifiedOn = true ∧
    parseIncoming (exampleRequest (some (.object []))) =
      .ok ⟨commonFields.zero, [], "AAA/BBB/CCC".toList, "widgets".toList⟩ ∧
    status (handler exampleEnv (exampleRequest (some (.object [])))) = some 204 ∧
    status (handler exampleEnv (exampleRequest (some (.object [])))) ≠ some 400 := by
  refine ⟨rfl, rfl, rfl, rfl, ?_, ?_⟩ <;> decide

/-! ### The example of the specification -/

theorem changeLine_script_code :
    changeLine "name".toList (.string "<script>&".toList) = "- _name_: <script>&\n".toList :=
  rfl

theorem changeLine_script_spec :
    "- _".toList ++ escapeSlackText "name".toList ++ "_: ".toList ++
        escapeSlackText "<script>&".toList ++ "\n".toList =
      "- _name_: &amp;lt;script&amp;gt;&amp;\n".toList :=
  rfl

/-- C2: the line `buildOutgoing` writes for a changed field with a string value holds the value
as it is: the key goes through `escapeSlackText`, the value does not.  For the body
`{"id":5,"modified_by":3,"modified_on":"2024-01-01T00:00:00Z","name":"<script>&"}` the line of
the field `name` is `- _name_: <script>&`. -/
theorem changeLine_value_not_escaped :
    (∀ (env : Env) (i : incoming), buildText env i =
      messageHead env i ++ (env.mapRange i.changes).flatMap (fun e => changeLine e.1 e.2)) ∧
    (∀ k v : GoString, changeLine k (.string v) =
      "- _".toList ++ escapeSlackText k ++ "_: ".toList ++ v ++ "\n".toList) ∧
    parseIncoming (exampleRequest (some (exampleBody "<script>&".toList))) =
      .ok (exampleIncoming "<script>&".toList) ∧
    (exampleIncoming "<script>&".toList).changes =
      [("name".toList, .string "<script>&".toList)] ∧
    changeLine "name".toList (.string "<script>&".toList) = "- _name_: <script>&\n".toList ∧
    changeLine "name".toList (.string "<script>&".toList) ≠
      "- _".toList ++ escapeSlackText "name".toList ++ "_: ".toList ++
        escapeSlackText "<script>&".toList ++ "\n".toList :=
  ⟨fun _ _ => foldl_changeLine _ _, fun _ _ => rfl, parseIncoming_exampleRequest _, rfl,
   changeLine_script_code,
   fun h => absurd (changeLine_script_code.symm.trans (h.trans changeLine_script_spec))
     (by decide)⟩

theorem modifiedObj_exampleIncoming :
    modifiedObj exampleEnv (exampleIncoming "Foo".toList) =
      "https://log.bula21.ch/admin/#/_/collections/widgets/%!s(float64=5)".toList := rfl

/-- C4: a record id that is a JSON number is printed into the object link with the verb `%s`,
which `fmt` answers with `%!s(float64=…)`: for the body
`{"id":5,"modified_by":3,"modified_on":"2024-01-01T00:00:00Z","name":"Foo"}` and the object type
`widgets` the link is `…/admin/#/_/collections/widgets/%!s(float64=5)`, and it is this link,
escaped, that the message holds in both places; `fmt.Sprint` of the same id is `5`. -/
theorem modifiedObj_numeric_id :
    (∀ (env : Env) (f : Float64) (u : Int) (ts t path : GoString) (changes : GoMap),
      modifiedObj env ⟨⟨.float64 f, u, ts⟩, changes, path, t⟩ =
        env.directusBaseURL ++ "/admin/#/_/collections/".toList ++ t ++
          "/%!s(float64=".toList ++ fmtFloat f ++ ")".toList) ∧
    parseIncoming (exampleRequest (some (exampleBody "Foo".toList))) =
      .ok (exampleIncoming "Foo".toList) ∧
    modifiedObj exampleEnv (exampleIncoming "Foo".toList) =
      "https://log.bula21.ch/admin/#/_/collections/widgets/%!s(float64=5)".toList ∧
    sprint (exampleIncoming "Foo".toList).common.ID = "5".toList ∧
    (∀ (env : Env) (i : incoming), messageHead env i =
      "<".toList ++ modifiedBy env i ++ "|Der User mit ID ".toList ++
      fmtInt i.common.ModifiedBy ++ "> hat der/die/das <".toList ++
      escapeSlackText (modifiedObj env i) ++ "|".toList ++
      escapeSlackText (env.title i.objectTypeName) ++ " mit ID ".toList ++
      escapeSlackText (sprint i.common.ID) ++ "> erstellt/editiert/gelöscht.".toList ++
      ("\n\nLinks zum copy-pasten:\n\x60".toList ++ modifiedBy env i ++
        "\x60\n\x60".toList ++ escapeSlackText (modifiedObj env i) ++ "\x60\n".toList) ++
      "\n\n*Änderungen*:\n".toList) := by
  refine ⟨?_, parseIncoming_exampleRequest _, modifiedObj_exampleIncoming, rfl,
    fun _ _ => rfl⟩
  intro env f u ts t path changes
  simp [modifiedObj, fmtValue]

end Directus2Slack
